import Mathlib

/-!
Shallow embedding of the Project2 shell (`src/Project2/main.go`) and proofs
of its specified properties.

The Go program is a read-eval loop over standard input.  We model:
* the tokenizer (`strings.TrimSpace` / `strings.Fields`, restricted to the
  whitespace code points Go's `unicode.IsSpace` accepts in the Latin-1 range);
* the operating-system state the built-ins act on (working directory,
  directories, files, environment table, current user, external commands);
* every built-in handler and the dispatcher `handleInput`;
* one iteration of `runLoop` as a step function on a loop state, with the
  buffered exit channel represented by a count of pending signals.
-/

namespace Shell

/-- Whitespace predicate used by Go's `strings.TrimSpace` and `strings.Fields`
(`unicode.IsSpace`), restricted to the Latin-1 range. -/
def isSpace (c : Char) : Bool :=
  c = ' ' || c = '\t' || c = '\n' || c = '\x0b' || c = '\x0c' || c = '\r' ||
  c = '\u0085' || c = '\u00a0'

/-- The character-list body of `strings.TrimSpace`: drop leading and trailing
whitespace. -/
def trimSpaceList (l : List Char) : List Char :=
  ((l.dropWhile isSpace).reverse.dropWhile isSpace).reverse

/-- Go's `strings.TrimSpace`. -/
def trimSpace (s : String) : String :=
  String.mk (trimSpaceList s.toList)

/-- Worker for `strings.Fields`: `acc` is the current (reversed) run of
non-whitespace characters. -/
def fieldsAux : List Char → List Char → List String
  | [], [] => []
  | [], a :: acc => [String.mk (a :: acc).reverse]
  | c :: rest, acc =>
    if isSpace c then
      match acc with
      | [] => fieldsAux rest []
      | a :: acc => String.mk (a :: acc).reverse :: fieldsAux rest []
    else
      fieldsAux rest (c :: acc)

/-- Go's `strings.Fields`: split on runs of whitespace, producing no empty
tokens. -/
def fields (s : String) : List String :=
  fieldsAux s.toList []

/-- Go's `strings.Join`. -/
def strJoin : List String → String → String
  | [], _ => ""
  | [x], _ => x
  | x :: xs, sep => x ++ sep ++ strJoin xs sep

/-- The operating-system state visible to the shell.  `os.Chdir`, `os.Mkdir`,
`os.Remove`, `os.Getwd`, `os.Environ`, `os.LookupEnv`, `user.Current` and
external process execution are modelled against this state. -/
structure OS where
  cwd : String
  dirs : List String
  files : List String
  env : List (String × String)
  username : Option String
  exec : String → List String → Option String

/-- `os.Chdir`: succeeds exactly when the target directory exists. -/
def osChdir (os : OS) (d : String) : Except String OS :=
  if d ∈ os.dirs then Except.ok { os with cwd := d }
  else Except.error ("chdir " ++ d ++ ": no such file or directory")

/-- `os.Mkdir`: fails when the name already exists, else records a new
directory. -/
def osMkdir (os : OS) (d : String) : Except String OS :=
  if d ∈ os.dirs || d ∈ os.files then
    Except.error ("mkdir " ++ d ++ ": file exists")
  else Except.ok { os with dirs := d :: os.dirs }

/-- `os.Remove`: removes an existing file or directory, fails otherwise. -/
def osRemove (os : OS) (f : String) : Except String OS :=
  if f ∈ os.files then Except.ok { os with files := os.files.erase f }
  else if f ∈ os.dirs then Except.ok { os with dirs := os.dirs.erase f }
  else Except.error ("remove " ++ f ++ ": no such file or directory")

/-- `os.Environ`: the inherited environment as `KEY=VALUE` strings. -/
def environ (os : OS) : List String :=
  os.env.map (fun p => p.1 ++ "=" ++ p.2)

/-- `os.LookupEnv`. -/
def lookupEnv (os : OS) (k : String) : Option String :=
  (os.env.find? (fun p => p.1 == k)).map (fun p => p.2)

/-- `ChangeDirectory` from `main.go`: error when no argument, else
`os.Chdir(args[0])`. -/
def ChangeDirectory (os : OS) (args : List String) : OS × Option String :=
  match args with
  | [] => (os, some "cd: missing argument")
  | a :: _ =>
    match osChdir os a with
    | Except.ok os' => (os', none)
    | Except.error e => (os, some e)

/-- The `for _, envVar := range os.Environ()` loop in
`EnvironmentVariables`: prints each variable on its own line. -/
def envAllLoop : List String → String
  | [] => ""
  | v :: rest => v ++ "\n" ++ envAllLoop rest

/-- The `for _, arg := range args` loop in `EnvironmentVariables`: for each
argument, print `KEY=VALUE` when set, else the not-found notice. -/
def envArgsLoop (os : OS) : List String → String
  | [] => ""
  | a :: rest =>
    (match lookupEnv os a with
     | some v => a ++ "=" ++ v ++ "\n"
     | none => a ++ " not found in environment variables\n") ++ envArgsLoop os rest

/-- `EnvironmentVariables` from `main.go`: output written to `w` together
with the returned error (always `nil`). -/
def EnvironmentVariables (os : OS) (args : List String) : String × Option String :=
  if args.isEmpty then (envAllLoop (environ os), none)
  else (envArgsLoop os args, none)

/-- `Echo` from `main.go`: `fmt.Fprintln(w, strings.Join(args, " "))`. -/
def Echo (args : List String) : String × Option String :=
  (strJoin args " " ++ "\n", none)

/-- `PrintWorkingDirectory` from `main.go` (`os.Getwd` never fails in this
model). -/
def PrintWorkingDirectory (os : OS) : String × Option String :=
  (os.cwd ++ "\n", none)

/-- `History` from `main.go`: ignores its arguments and prints the fixed
placeholder notice. -/
def History (_ : List String) : String × Option String :=
  ("History command is not implemented yet.\n", none)

/-- The `for _, dir := range args` loop of `MakeDirectory`: apply `os.Mkdir`
in order, returning at the first failure. -/
def mkdirLoop : OS → List String → OS × Option String
  | os, [] => (os, none)
  | os, d :: rest =>
    match osMkdir os d with
    | Except.ok os' => mkdirLoop os' rest
    | Except.error e => (os, some e)

/-- `MakeDirectory` from `main.go`. -/
def MakeDirectory (os : OS) (args : List String) : OS × Option String :=
  if args.isEmpty then (os, some "mkdir: missing operand")
  else mkdirLoop os args

/-- The `for _, file := range args` loop of `RemoveFile`: apply `os.Remove`
in order, returning at the first failure. -/
def rmLoop : OS → List String → OS × Option String
  | os, [] => (os, none)
  | os, f :: rest =>
    match osRemove os f with
    | Except.ok os' => rmLoop os' rest
    | Except.error e => (os, some e)

/-- `RemoveFile` from `main.go`. -/
def RemoveFile (os : OS) (args : List String) : OS × Option String :=
  if args.isEmpty then (os, some "rm: missing operand")
  else rmLoop os args

/-- `executeCommand` from `main.go`: the child's stdout/stderr go to the
process streams, not to the dispatcher's writer, so only the resulting error
is visible here. -/
def executeCommand (os : OS) (name : String) (args : List String) : Option String :=
  os.exec name args

/-- Outcome of dispatching one input line: text written to the `w` writer,
number of signals sent on the exit channel, resulting OS state, returned
error. -/
structure HandleResult where
  out : String
  exits : Nat
  os : OS
  err : Option String

/-- The `switch name` body of `handleInput`, applied to the token list. -/
def dispatchLine (os : OS) (args : List String) : HandleResult :=
  match args with
  | [] => ⟨"", 0, os, none⟩
  | name :: args =>
    match name with
    | "cd" =>
      let r := ChangeDirectory os args
      ⟨"", 0, r.1, r.2⟩
    | "env" =>
      let r := EnvironmentVariables os args
      ⟨r.1, 0, os, r.2⟩
    | "exit" => ⟨"", 1, os, none⟩
    | "echo" =>
      let r := Echo args
      ⟨r.1, 0, os, r.2⟩
    | "pwd" =>
      let r := PrintWorkingDirectory os
      ⟨r.1, 0, os, r.2⟩
    | "history" =>
      let r := History args
      ⟨r.1, 0, os, r.2⟩
    | "mkdir" =>
      let r := MakeDirectory os args
      ⟨"", 0, r.1, r.2⟩
    | "rm" =>
      let r := RemoveFile os args
      ⟨"", 0, r.1, r.2⟩
    | _ => ⟨"", 0, os, executeCommand os name args⟩

/-- `handleInput` from `main.go`: trim, split into fields, dispatch. -/
def handleInput (os : OS) (input : String) : HandleResult :=
  dispatchLine os (fields (trimSpace input))

/-- Capacity of the exit channel created in `main`:
`exit := make(chan struct\x7b\x7d, 2)`. -/
def exitChanCapacity : Nat := 2

/-- State of `runLoop`.  `pending` is the remaining input stream: each entry
is either a successfully read line or a read error; once exhausted, reads
report end-of-input forever.  `exitSignals` counts buffered values in the
exit channel.  `done` marks that the loop has returned. -/
structure LoopState where
  pending : List (Except String String)
  exitSignals : Nat
  os : OS
  out : String
  errOut : String
  done : Bool

/-- `printPrompt` from `main.go`: `<wd> [<user>] $ ` re-queried each call;
fails when the current user cannot be determined. -/
def printPrompt (os : OS) : Except String String :=
  match os.username with
  | none => Except.error "user: lookup failed"
  | some u => Except.ok (os.cwd ++ " [" ++ u ++ "] $ ")

/-- One iteration of the `for` loop in `runLoop`.  A `done` state is
terminal.  Otherwise: non-blocking check of the exit channel (print the
graceful-exit notice and stop if a signal is present), then prompt, then
read one line (errors, including end-of-input on an exhausted stream, are
reported to `errOut` and the iteration restarts), then dispatch. -/
def step (s : LoopState) : LoopState :=
  if s.done then s
  else if 0 < s.exitSignals then
    { s with
      exitSignals := s.exitSignals - 1
      out := s.out ++ "exiting gracefully...\n"
      done := true }
  else
    match printPrompt s.os with
    | Except.error e => { s with errOut := s.errOut ++ e ++ "\n" }
    | Except.ok p =>
      match s.pending with
      | [] => { s with out := s.out ++ p, errOut := s.errOut ++ "EOF\n" }
      | Except.error e :: rest =>
        { s with
          pending := rest
          out := s.out ++ p
          errOut := s.errOut ++ e ++ "\n" }
      | Except.ok line :: rest =>
        { pending := rest
          exitSignals := s.exitSignals + (handleInput s.os line).exits
          os := (handleInput s.os line).os
          out := s.out ++ p ++ (handleInput s.os line).out
          errOut :=
            match (handleInput s.os line).err with
            | some e => s.errOut ++ e ++ "\n"
            | none => s.errOut
          done := false }

/-- The loop state `main` starts `runLoop` in: empty exit channel, nothing
written yet. -/
def initState (os : OS) (pending : List (Except String String)) : LoopState :=
  ⟨pending, 0, os, "", "", false⟩

/-- States of the driver loop reachable from a given start state. -/
inductive Reachable (s0 : LoopState) : LoopState → Prop where
  | refl : Reachable s0 s0
  | tail : ∀ {s}, Reachable s0 s → Reachable s0 (step s)

/-! ## Tokenizer lemmas -/

theorem fieldsAux_all_space (l : List Char) (acc : List Char)
    (h : ∀ c ∈ l, isSpace c = true) : fieldsAux l acc = fieldsAux [] acc := by
  induction l generalizing acc with
  | nil => rfl
  | cons c rest ih =>
    have hc : isSpace c = true := h c (List.mem_cons_self _ _)
    have hr : ∀ x ∈ rest, isSpace x = true := fun x hx => h x (List.mem_cons_of_mem _ hx)
    cases acc with
    | nil => simp [fieldsAux, hc, ih _ hr]
    | cons a as => simp [fieldsAux, hc, ih _ hr]

theorem fieldsAux_append_space (l sfx : List Char) (acc : List Char)
    (h : ∀ c ∈ sfx, isSpace c = true) : fieldsAux (l ++ sfx) acc = fieldsAux l acc := by
  induction l generalizing acc with
  | nil => simpa using fieldsAux_all_space sfx acc h
  | cons c rest ih =>
    by_cases hc : isSpace c = true
    · cases acc with
      | nil => simp [fieldsAux, hc, ih]
      | cons a as => simp [fieldsAux, hc, ih]
    · simp only [List.cons_append, fieldsAux, hc, Bool.false_eq_true, if_false]
      exact ih (c :: acc)

theorem fieldsAux_dropWhile (l : List Char) :
    fieldsAux (l.dropWhile isSpace) [] = fieldsAux l [] := by
  induction l with
  | nil => rfl
  | cons c rest ih =>
    by_cases hc : isSpace c = true
    · rw [List.dropWhile_cons_of_pos hc, ih]
      simp [fieldsAux, hc]
    · rw [List.dropWhile_cons_of_neg hc]

/-- Tokenization ignores leading and trailing whitespace: `strings.Fields`
after `strings.TrimSpace` equals `strings.Fields` on the raw line. -/
theorem fields_trimSpace (s : String) : fields (trimSpace s) = fields s := by
  show fieldsAux (trimSpaceList s.toList) [] = fieldsAux s.toList []
  unfold trimSpaceList
  set l := s.toList with hl
  set m := l.dropWhile isSpace with hm
  have hsplit : m = (m.reverse.dropWhile isSpace).reverse
      ++ (m.reverse.takeWhile isSpace).reverse := by
    have h1 : m.reverse.takeWhile isSpace ++ m.reverse.dropWhile isSpace = m.reverse :=
      List.takeWhile_append_dropWhile _ _
    calc m = m.reverse.reverse := (List.reverse_reverse m).symm
      _ = (m.reverse.takeWhile isSpace ++ m.reverse.dropWhile isSpace).reverse := by
          rw [h1]
      _ = (m.reverse.dropWhile isSpace).reverse
          ++ (m.reverse.takeWhile isSpace).reverse := by
          rw [List.reverse_append]
  have hsfx : ∀ c ∈ (m.reverse.takeWhile isSpace).reverse, isSpace c = true := by
    intro c hc
    rw [List.mem_reverse] at hc
    exact List.mem_takeWhile_imp hc
  calc fieldsAux ((m.reverse.dropWhile isSpace).reverse) []
      = fieldsAux ((m.reverse.dropWhile isSpace).reverse
          ++ (m.reverse.takeWhile isSpace).reverse) [] :=
        (fieldsAux_append_space _ _ _ hsfx).symm
    _ = fieldsAux m [] := by rw [← hsplit]
    _ = fieldsAux l [] := fieldsAux_dropWhile l

/-- `strings.Fields` never produces an empty token. -/
theorem fieldsAux_ne_empty (l : List Char) (acc : List Char) :
    ∀ t ∈ fieldsAux l acc, t ≠ "" := by
  induction l generalizing acc with
  | nil =>
    cases acc with
    | nil => simp [fieldsAux]
    | cons a as =>
      simp only [fieldsAux, List.mem_singleton]
      intro t ht
      subst ht
      simp [String.ext_iff]
  | cons c rest ih =>
    by_cases hc : isSpace c = true
    · cases acc with
      | nil =>
        simp only [fieldsAux, hc, if_true]
        exact ih []
      | cons a as =>
        simp only [fieldsAux, hc, if_true, List.mem_cons]
        intro t ht
        rcases ht with ht | ht
        · subst ht; simp [String.ext_iff]
        · exact ih [] t ht
    · simp only [fieldsAux, hc, Bool.false_eq_true, if_false]
      exact ih (c :: acc)

theorem fields_no_empty_token (s : String) : "" ∉ fields s := by
  intro h
  exact fieldsAux_ne_empty s.toList [] "" h rfl

theorem fields_all_space (s : String)
    (h : ∀ c ∈ s.toList, isSpace c = true) : fields s = [] := by
  show fieldsAux s.toList [] = []
  rw [fieldsAux_all_space s.toList [] h]
  rfl

/-! ## String-joining lemmas -/

theorem strJoin_go (sep : String) (as : List String) :
    ∀ acc : String, String.intercalate.go acc sep as = strJoin (acc :: as) sep := by
  induction as with
  | nil => intro acc; rfl
  | cons b bs ih =>
    intro acc
    rw [String.intercalate.go, ih]
    cases bs with
    | nil => simp [strJoin]
    | cons c cs => simp [strJoin, String.append_assoc]

/-- `strings.Join` with separator `sep` is `String.intercalate sep`. -/
theorem strJoin_eq_intercalate (xs : List String) (sep : String) :
    strJoin xs sep = String.intercalate sep xs := by
  cases xs with
  | nil => rfl
  | cons a as => rw [String.intercalate, strJoin_go]

theorem string_join_cons (x : String) (xs : List String) :
    String.join (x :: xs) = x ++ String.join xs := by
  have go : ∀ (l : List String) (acc : String),
      List.foldl (fun r s => r ++ s) acc l = acc ++ List.foldl (fun r s => r ++ s) "" l := by
    intro l
    induction l with
    | nil => intro acc; simp
    | cons y ys ih =>
      intro acc
      simp only [List.foldl_cons]
      rw [ih (acc ++ y), ih ("" ++ y), String.empty_append, String.append_assoc]
  show List.foldl (fun r s => r ++ s) "" (x :: xs) = x ++ String.join xs
  simp only [List.foldl_cons, String.empty_append]
  exact go xs x

theorem envAllLoop_eq_join (vs : List String) :
    envAllLoop vs = String.join (vs.map (fun v => v ++ "\n")) := by
  induction vs with
  | nil => rfl
  | cons v rest ih =>
    simp only [envAllLoop, List.map_cons, string_join_cons, ih, String.append_assoc]

theorem envArgsLoop_eq_join (os : OS) (args : List String) :
    envArgsLoop os args = String.join (args.map (fun a =>
      match lookupEnv os a with
      | some v => a ++ "=" ++ v ++ "\n"
      | none => a ++ " not found in environment variables\n")) := by
  induction args with
  | nil => rfl
  | cons a rest ih =>
    simp only [envArgsLoop, List.map_cons, string_join_cons, ih]

/-! ## First-failure lemmas for the mkdir/rm loops -/

theorem mkdirLoop_append (l1 l2 : List String) (os : OS) :
    mkdirLoop os (l1 ++ l2) =
      match mkdirLoop os l1 with
      | (os', none) => mkdirLoop os' l2
      | (os', some e) => (os', some e) := by
  induction l1 generalizing os with
  | nil => simp [mkdirLoop]
  | cons d rest ih =>
    cases h : osMkdir os d with
    | ok os' => simp [mkdirLoop, h, ih]
    | error e => simp [mkdirLoop, h]

theorem rmLoop_append (l1 l2 : List String) (os : OS) :
    rmLoop os (l1 ++ l2) =
      match rmLoop os l1 with
      | (os', none) => rmLoop os' l2
      | (os', some e) => (os', some e) := by
  induction l1 generalizing os with
  | nil => simp [rmLoop]
  | cons f rest ih =>
    cases h : osRemove os f with
    | ok os' => simp [rmLoop, h, ih]
    | error e => simp [rmLoop, h]

/-! ## Dispatcher lemmas -/

/-- Every branch of the dispatcher sends at most one exit signal. -/
theorem handleInput_exits_le_one (os : OS) (input : String) :
    (handleInput os input).exits ≤ 1 := by
  unfold handleInput dispatchLine
  split
  · exact Nat.zero_le 1
  · split <;> simp

/-- Dispatching a line whose command name is `cd`, `mkdir`, `rm` or `exit`
writes nothing to the output writer. -/
theorem dispatchLine_out_silent (os : OS) (name : String) (args : List String)
    (h : name = "cd" ∨ name = "mkdir" ∨ name = "rm" ∨ name = "exit") :
    (dispatchLine os (name :: args)).out = "" := by
  rcases h with h | h | h | h <;> subst h <;> rfl

/-- Any output from the dispatcher comes from `env`, `echo`, `pwd` or
`history`. -/
theorem dispatchLine_out_source (os : OS) (args : List String) :
    (dispatchLine os args).out = ""
    ∨ args.head? = some "env" ∨ args.head? = some "echo"
    ∨ args.head? = some "pwd" ∨ args.head? = some "history" := by
  unfold dispatchLine
  split
  · left; rfl
  · split <;> simp

/-! ## Loop lemmas -/

theorem step_exits_le_one (s : LoopState) (h : s.exitSignals ≤ 1) :
    (step s).exitSignals ≤ 1 := by
  unfold step
  split
  · exact h
  · split
    · simp
      omega
    · split
      · exact h
      · split
        · exact h
        · exact h
        · rename_i line rest heq
          have hb := handleInput_exits_le_one s.os line
          simp only []
          omega

theorem reachable_exitSignals_le_one (os : OS) (p : List (Except String String))
    (s : LoopState) (h : Reachable (initState os p) s) : s.exitSignals ≤ 1 := by
  induction h with
  | refl => exact Nat.zero_le 1
  | tail _ ih => exact step_exits_le_one _ ih

/-! ## A concrete fixture used by the witnesses -/

/-- A small concrete OS state: one directory `d`, one file `f`, two
environment variables, user `u`, and external commands that always
succeed. -/
def os₀ : OS where
  cwd := "/home/u"
  dirs := ["d"]
  files := ["f"]
  env := [("PATH", "/bin"), ("HOME", "/home/u")]
  username := some "u"
  exec := fun _ _ => none

/-! ## Claim theorems -/

/-- C2: every input line that is empty or consists only of whitespace
dispatches to a no-op: nil error, no output, no OS state change, no exit
signal. -/
theorem blank_line_noop (os : OS) (input : String)
    (h : ∀ c ∈ input.toList, isSpace c = true) :
    handleInput os input = ⟨"", 0, os, none⟩ := by
  unfold handleInput
  rw [fields_trimSpace, fields_all_space input h]
  rfl

theorem blank_line_noop_witness :
    handleInput os₀ "  \t  " = ⟨"", 0, os₀, none⟩ :=
  blank_line_noop os₀ "  \t  " (by decide)

/-- C5: tokenization produces no empty tokens and collapses whitespace
runs, so two lines with equal token sequences dispatch identically; in
particular `echo   a   b` produces exactly `a b\n`, the same as
`echo a b`. -/
theorem tokenization_collapses_whitespace (os : OS) (l1 l2 : String) :
    "" ∉ fields l1
    ∧ (fields l1 = fields l2 → handleInput os l1 = handleInput os l2)
    ∧ handleInput os "echo   a   b" = ⟨"a b\n", 0, os, none⟩
    ∧ handleInput os "echo a b" = ⟨"a b\n", 0, os, none⟩ := by
  refine ⟨fields_no_empty_token l1, ?_, ?_, ?_⟩
  · intro h
    unfold handleInput
    rw [fields_trimSpace, fields_trimSpace, h]
  · rfl
  · rfl

theorem tokenization_collapses_whitespace_witness :
    handleInput os₀ "echo  x" = handleInput os₀ "echo x" :=
  (tokenization_collapses_whitespace os₀ "echo  x" "echo x").2.1 rfl

/-- C7: `cd` with no arguments returns the missing-argument error and
leaves the OS state (in particular the working directory) unchanged; with
arguments it changes the working directory to the first argument,
surfacing the OS error on failure with no state change. -/
theorem cd_missing_argument_and_chdir (os os' : OS) (a e : String)
    (rest : List String) :
    ChangeDirectory os [] = (os, some "cd: missing argument")
    ∧ (osChdir os a = Except.error e →
        ChangeDirectory os (a :: rest) = (os, some e))
    ∧ (osChdir os a = Except.ok os' →
        ChangeDirectory os (a :: rest) = (os', none) ∧ os'.cwd = a) := by
  refine ⟨rfl, ?_, ?_⟩
  · intro h
    simp [ChangeDirectory, h]
  · intro h
    constructor
    · simp [ChangeDirectory, h]
    · unfold osChdir at h
      split at h
      · injection h with h'
        rw [← h']
      · exact absurd h (by simp)

theorem cd_missing_argument_and_chdir_witness :
    ChangeDirectory os₀ ["d"] = ({ os₀ with cwd := "d" }, none)
    ∧ ChangeDirectory os₀ ["nope"]
      = (os₀, some "chdir nope: no such file or directory") := by
  constructor
  · exact ((cd_missing_argument_and_chdir os₀ { os₀ with cwd := "d" } "d"
      "" []).2.2 rfl).1
  · exact (cd_missing_argument_and_chdir os₀ os₀ "nope"
      "chdir nope: no such file or directory" []).2.1 rfl

/-- C8: `env` never fails; with no arguments it prints every inherited
environment variable as `KEY=VALUE`, and with arguments it prints, in
order, `KEY=VALUE` for each set variable and a not-found notice naming the
argument otherwise. -/
theorem env_never_fails_prints_each (os : OS) (args : List String)
    (a : String) (as : List String) :
    (EnvironmentVariables os args).2 = none
    ∧ (EnvironmentVariables os []).1
        = String.join (os.env.map (fun p => p.1 ++ "=" ++ p.2 ++ "\n"))
    ∧ (EnvironmentVariables os (a :: as)).1
        = String.join ((a :: as).map (fun x =>
            match lookupEnv os x with
            | some v => x ++ "=" ++ v ++ "\n"
            | none => x ++ " not found in environment variables\n")) := by
  refine ⟨?_, ?_, ?_⟩
  · unfold EnvironmentVariables
    split <;> rfl
  · show envAllLoop (environ os) = _
    rw [envAllLoop_eq_join]
    unfold environ
    rw [List.map_map]
    rfl
  · show envArgsLoop os (a :: as) = _
    exact envArgsLoop_eq_join os (a :: as)

/-- C9: `echo` prints its arguments joined by single spaces plus a trailing
newline and always succeeds; with zero arguments it prints exactly one
empty line. -/
theorem echo_joins_args (args : List String) :
    Echo args = (String.intercalate " " args ++ "\n", none)
    ∧ Echo [] = ("\n", none) := by
  constructor
  · unfold Echo
    rw [strJoin_eq_intercalate]
  · rfl

/-- C4: `mkdir` and `rm` process their arguments in order and return the
first per-item OS failure immediately: the items before the failure stay
applied in the resulting state, the items after it are never attempted
(the result does not depend on them), and an empty argument list yields the
missing-operand error with no item attempted. -/
theorem mkdir_rm_first_failure_aborts (os os1 os2 : OS) (pre post : List String)
    (x e : String) :
    (MakeDirectory os [] = (os, some "mkdir: missing operand")
      ∧ RemoveFile os [] = (os, some "rm: missing operand"))
    ∧ (mkdirLoop os pre = (os1, none) → osMkdir os1 x = Except.error e →
        MakeDirectory os (pre ++ x :: post) = (os1, some e))
    ∧ (rmLoop os pre = (os2, none) → osRemove os2 x = Except.error e →
        RemoveFile os (pre ++ x :: post) = (os2, some e)) := by
  refine ⟨⟨rfl, rfl⟩, ?_, ?_⟩
  · intro h1 h2
    unfold MakeDirectory
    rw [if_neg (by simp), mkdirLoop_append, h1]
    simp [mkdirLoop, h2]
  · intro h1 h2
    unfold RemoveFile
    rw [if_neg (by simp), rmLoop_append, h1]
    simp [rmLoop, h2]

theorem mkdir_rm_first_failure_aborts_witness :
    MakeDirectory os₀ ["x", "d", "y"]
      = ({ os₀ with dirs := ["x", "d"] }, some "mkdir d: file exists")
    ∧ RemoveFile os₀ ["f", "g", "h"]
      = ({ os₀ with files := [] }, some "remove g: no such file or directory") := by
  constructor
  · exact (mkdir_rm_first_failure_aborts os₀ { os₀ with dirs := ["x", "d"] } os₀
      ["x"] ["y"] "d" "mkdir d: file exists").2.1 rfl rfl
  · exact (mkdir_rm_first_failure_aborts os₀ os₀ { os₀ with files := [] }
      ["f"] ["h"] "g" "remove g: no such file or directory").2.2 rfl rfl

/-- C10: the built-ins `cd`, `mkdir`, `rm` and `exit` write nothing to the
dispatcher's output writer, and any dispatch that does write to it has
`env`, `echo`, `pwd` or `history` as its command name. -/
theorem only_output_builtins_write (os : OS) (input : String) :
    (((fields (trimSpace input)).head? = some "cd"
        ∨ (fields (trimSpace input)).head? = some "mkdir"
        ∨ (fields (trimSpace input)).head? = some "rm"
        ∨ (fields (trimSpace input)).head? = some "exit")
      → (handleInput os input).out = "")
    ∧ ((handleInput os input).out ≠ ""
      → ((fields (trimSpace input)).head? = some "env"
        ∨ (fields (trimSpace input)).head? = some "echo"
        ∨ (fields (trimSpace input)).head? = some "pwd"
        ∨ (fields (trimSpace input)).head? = some "history")) := by
  constructor
  · intro h
    show (dispatchLine os (fields (trimSpace input))).out = ""
    cases hf : fields (trimSpace input) with
    | nil => rfl
    | cons name args =>
      rw [hf] at h
      simp only [List.head?_cons, Option.some.injEq] at h
      exact dispatchLine_out_silent os name args h
  · intro h
    have h2 := dispatchLine_out_source os (fields (trimSpace input))
    rcases h2 with h2 | h2
    · exact absurd h2 h
    · exact h2

theorem only_output_builtins_write_witness :
    (handleInput os₀ "exit now").out = ""
    ∧ ((fields (trimSpace "echo hi")).head? = some "env"
      ∨ (fields (trimSpace "echo hi")).head? = some "echo"
      ∨ (fields (trimSpace "echo hi")).head? = some "pwd"
      ∨ (fields (trimSpace "echo hi")).head? = some "history") := by
  constructor
  · exact (only_output_builtins_write os₀ "exit now").1
      (Or.inr (Or.inr (Or.inr rfl)))
  · exact (only_output_builtins_write os₀ "echo hi").2 (by decide)

/-- C1: dispatching `exit` enqueues one signal and returns success with no
output, leaving the loop running to the end of the iteration; the next
top-of-iteration check observes the signal, appends exactly one
graceful-exit notice and terminates, leaving every queued later line
unread (`pending` is untouched) — and a terminated state is final. -/
theorem exit_dispatch_defers_termination (os : OS) (u input : String)
    (restArgs : List String) (rest : List (Except String String))
    (out0 err0 : String)
    (hu : os.username = some u)
    (htok : fields (trimSpace input) = "exit" :: restArgs) :
    step ⟨Except.ok input :: rest, 0, os, out0, err0, false⟩
      = ⟨rest, 1, os, out0 ++ (os.cwd ++ " [" ++ u ++ "] $ "), err0, false⟩
    ∧ step ⟨rest, 1, os, out0 ++ (os.cwd ++ " [" ++ u ++ "] $ "), err0, false⟩
      = ⟨rest, 0, os, out0 ++ (os.cwd ++ " [" ++ u ++ "] $ ")
          ++ "exiting gracefully...\n", err0, true⟩
    ∧ (∀ s : LoopState, s.done = true → step s = s) := by
  have hhi : handleInput os input = ⟨"", 1, os, none⟩ := by
    unfold handleInput
    rw [htok]
    rfl
  refine ⟨?_, ?_, ?_⟩
  · simp [step, printPrompt, hu, hhi]
  · simp [step]
  · intro s hd
    unfold step
    rw [if_pos hd]

theorem exit_dispatch_defers_termination_witness :
    step ⟨[Except.ok "exit\n", Except.ok "echo hi\n"], 0, os₀, "", "", false⟩
      = ⟨[Except.ok "echo hi\n"], 1, os₀,
          "" ++ (os₀.cwd ++ " [" ++ "u" ++ "] $ "), "", false⟩
    ∧ step ⟨[Except.ok "echo hi\n"], 1, os₀,
          "" ++ (os₀.cwd ++ " [" ++ "u" ++ "] $ "), "", false⟩
      = ⟨[Except.ok "echo hi\n"], 0, os₀,
          "" ++ (os₀.cwd ++ " [" ++ "u" ++ "] $ ") ++ "exiting gracefully...\n",
          "", true⟩ := by
  have h := exit_dispatch_defers_termination os₀ "u" "exit\n" []
    [Except.ok "echo hi\n"] "" "" rfl rfl
  exact ⟨h.1, h.2.1⟩

/-- C3: a read failure — including end-of-input, modelled by an exhausted
stream — is written to the error output and the iteration restarts with the
loop still running; and the only way a step terminates the loop is a
pending exit signal (or the loop being already terminated). -/
theorem read_error_restarts_loop (s : LoopState) (u e : String)
    (rest : List (Except String String)) :
    (s.done = false → s.exitSignals = 0 → s.os.username = some u →
      ((s.pending = [] →
          step s = { s with
            out := s.out ++ (s.os.cwd ++ " [" ++ u ++ "] $ ")
            errOut := s.errOut ++ "EOF\n" })
        ∧ (s.pending = Except.error e :: rest →
          step s = { s with
            pending := rest
            out := s.out ++ (s.os.cwd ++ " [" ++ u ++ "] $ ")
            errOut := s.errOut ++ e ++ "\n" })))
    ∧ ((step s).done = true → s.done = true ∨ 0 < s.exitSignals) := by
  constructor
  · intro hd hn hu
    constructor
    · intro hp
      unfold step
      rw [if_neg (by simp [hd]), if_neg (by simp [hn])]
      simp [printPrompt, hu, hp]
    · intro hp
      unfold step
      rw [if_neg (by simp [hd]), if_neg (by simp [hn])]
      simp [printPrompt, hu, hp]
  · intro hdone
    by_cases hd : s.done = true
    · exact Or.inl hd
    · by_cases hn : 0 < s.exitSignals
      · exact Or.inr hn
      · exfalso
        unfold step at hdone
        rw [if_neg hd, if_neg hn] at hdone
        cases hpp : printPrompt s.os with
        | error e' =>
          rw [hpp] at hdone
          exact hd hdone
        | ok p =>
          rw [hpp] at hdone
          cases hpd : s.pending with
          | nil =>
            rw [hpd] at hdone
            exact hd hdone
          | cons h0 tl =>
            cases h0 with
            | error e' =>
              rw [hpd] at hdone
              exact hd hdone
            | ok line =>
              rw [hpd] at hdone
              simp at hdone

theorem read_error_restarts_loop_witness :
    step ⟨[], 0, os₀, "", "", false⟩
      = ⟨[], 0, os₀, "" ++ (os₀.cwd ++ " [" ++ "u" ++ "] $ "),
          "" ++ "EOF\n", false⟩
    ∧ step ⟨[Except.error "read err"], 0, os₀, "", "", false⟩
      = ⟨[], 0, os₀, "" ++ (os₀.cwd ++ " [" ++ "u" ++ "] $ "),
          "" ++ "read err" ++ "\n", false⟩ := by
  constructor
  · exact ((read_error_restarts_loop ⟨[], 0, os₀, "", "", false⟩ "u" "" []).1
      rfl rfl rfl).1 rfl
  · exact ((read_error_restarts_loop ⟨[Except.error "read err"], 0, os₀, "", "", false⟩
      "u" "read err" []).1 rfl rfl rfl).2 rfl

/-- C6: the exit channel is created with capacity 2, dispatch sends at most
one signal per line, and in every state of the driver loop reachable from
the start state the number of pending exit signals stays within the
capacity, so the exit built-in's buffered send never blocks. -/
theorem exit_channel_capacity_invariant (os : OS) (input : String)
    (p : List (Except String String)) (s : LoopState) :
    exitChanCapacity = 2
    ∧ (handleInput os input).exits ≤ 1
    ∧ (Reachable (initState os p) s → s.exitSignals ≤ exitChanCapacity) := by
  refine ⟨rfl, handleInput_exits_le_one os input, ?_⟩
  intro h
  have h1 := reachable_exitSignals_le_one os p s h
  unfold exitChanCapacity
  omega

theorem exit_channel_capacity_invariant_witness :
    exitChanCapacity = 2
    ∧ (handleInput os₀ "exit").exits ≤ 1
    ∧ (step (initState os₀ [Except.ok "exit\n"])).exitSignals ≤ exitChanCapacity := by
  have h := exit_channel_capacity_invariant os₀ "exit" [Except.ok "exit\n"]
    (step (initState os₀ [Except.ok "exit\n"]))
  exact ⟨h.1, h.2.1, h.2.2 (Reachable.tail Reachable.refl)⟩

end Shell
